import Mathlib

/-!
# Battery arbitrage simulator — formal model

Shallow embedding of `run_battery_sim` from
`src/simulations/battery-arbitrage/battery_sim_simple.py` and
`src/simulations/battery-arbitrage/main.py`.  The two Python functions share
one loop body verbatim; they differ only in which inputs are fixed
(`battery_sim_simple.py` fixes `capacity_mwh = 100` and takes the percentiles
from the caller; `main.py` fixes the percentiles at 30/70 and takes the
capacity).  We embed the shared parameterized core once.

Prices are modelled as rational numbers.  The deterministic sinusoid+Gaussian
forecast shape and the seeded Gaussian noise draw are real-valued quantities
produced outside the decision loop; the theorems below quantify universally
over the forecast and noise sequences, which covers the concrete curves the
Python code produces.
-/

namespace BatterySim

/-- Per-hour action, the `action` string of the Python loop
(`"charge"`, `"discharge"`, `"idle"`). -/
inductive Action where
  | charge
  | discharge
  | idle
deriving DecidableEq, Repr

/-- One row of the trace: `rows.append((h, float(p), action, soc, charge_mwh,
discharge_mwh))`.  `soc` is the state of charge *after* the hour's action. -/
structure HourRow where
  hour : Nat
  price : ℚ
  action : Action
  soc : ℚ
  chg : ℚ
  dis : ℚ
deriving DecidableEq, Repr

/-- The price floor `p_floor = -20` of both source files. -/
def pFloor : ℚ := -20

/-- `np.clip(x, a_min=p_floor, a_max=None)` applied pointwise:
clip with a floor and no ceiling is `max x p_floor`.  The clip is applied to
`forecast + noise`, i.e. after the noise has been added. -/
def realizedPrice (forecast noise : ℚ) : ℚ :=
  max (forecast + noise) pFloor

/-- The realized price sequence:
`realized_prices = np.clip(forecast_prices + noise, a_min=p_floor, a_max=None)`. -/
def realizedPrices (forecast noise : List ℚ) : List ℚ :=
  List.zipWith realizedPrice forecast noise

/-- Modelled from the spec: `np.percentile(a, q)` (numpy's default
linear-interpolation percentile) is library code not in this repository.
Per the spec it uses "linear-interpolation percentile semantics ...
(standard definition: sort values, interpolate between ranks)": sort the
values, locate rank `q/100 * (n-1)`, and interpolate linearly between the
two neighbouring sorted values. -/
def percentileLinear (xs : List ℚ) (pct : ℚ) : ℚ :=
  if xs.isEmpty then 0
  else
    let sorted := xs.insertionSort (· ≤ ·)
    let n := sorted.length
    let r : ℚ := pct / 100 * (n - 1)
    let i : Nat := min r.floor.toNat (n - 1)
    let lo := sorted.getD i 0
    let hi := sorted.getD (min (i + 1) (n - 1)) 0
    lo + (r - (i : ℚ)) * (hi - lo)

/-- One iteration of the hour loop of `run_battery_sim`, acting on the
state `(soc, profit)` at hour `h` with realized price `p`:

```
if p <= charge_thr and soc < capacity_mwh:
    charge_mwh = min(power_mw, capacity_mwh - soc)
    soc += charge_mwh
    profit -= charge_mwh * p
    action = "charge"
elif p >= discharge_thr and soc > 0:
    discharge_mwh = min(power_mw, soc)
    soc -= discharge_mwh
    delivered_mwh = discharge_mwh * rte
    profit += delivered_mwh * p
    action = "discharge"
rows.append((h, float(p), action, soc, charge_mwh, discharge_mwh))
```

Returns the appended row together with the updated `(soc, profit)`. -/
def simStep (capacity power rte chargeThr dischargeThr : ℚ)
    (h : Nat) (p soc profit : ℚ) : HourRow × ℚ × ℚ :=
  if p ≤ chargeThr ∧ soc < capacity then
    let chg := min power (capacity - soc)
    let soc1 := soc + chg
    let profit1 := profit - chg * p
    (⟨h, p, Action.charge, soc1, chg, 0⟩, soc1, profit1)
  else if dischargeThr ≤ p ∧ 0 < soc then
    let dis := min power soc
    let soc1 := soc - dis
    let delivered := dis * rte
    let profit1 := profit + delivered * p
    (⟨h, p, Action.discharge, soc1, 0, dis⟩, soc1, profit1)
  else
    (⟨h, p, Action.idle, soc, 0, 0⟩, soc, profit)

/-- The hour loop `for h, p in enumerate(realized_prices)`, starting the
enumeration at hour `h` with state `(soc, profit)`.  Returns the trace rows
and the final `(soc, profit)`. -/
def simLoop (capacity power rte chargeThr dischargeThr : ℚ) :
    Nat → List ℚ → ℚ → ℚ → List HourRow × ℚ × ℚ
  | _, [], soc, profit => ([], soc, profit)
  | h, p :: ps, soc, profit =>
    let step := simStep capacity power rte chargeThr dischargeThr h p soc profit
    let rest := simLoop capacity power rte chargeThr dischargeThr
      (h + 1) ps step.2.1 step.2.2
    (step.1 :: rest.1, rest.2.1, rest.2.2)

/-- The serialized report: the `payload` dictionary of
`battery_sim_simple.py` (and, field for field, the text report of
`main.py`). -/
structure SimResult where
  hours : List Nat
  forecast_prices : List ℚ
  realized_prices : List ℚ
  charge_thr : ℚ
  discharge_thr : ℚ
  profit : ℚ
  rows : List HourRow
deriving DecidableEq, Repr

/-- The parameterized core shared by both Python variants: thresholds from
the forecast percentiles, realized prices from forecast + noise (floor
clamped), then the hour loop from `soc = 0.0`, `profit = 0.0`. -/
def runBatterySim (chargePct dischargePct power rte capacity : ℚ)
    (forecast noise : List ℚ) : SimResult :=
  let realized := realizedPrices forecast noise
  let chargeThr := percentileLinear forecast chargePct
  let dischargeThr := percentileLinear forecast dischargePct
  let res := simLoop capacity power rte chargeThr dischargeThr 0 realized 0 0
  { hours := List.range realized.length
    forecast_prices := forecast
    realized_prices := realized
    charge_thr := chargeThr
    discharge_thr := dischargeThr
    profit := res.2.2
    rows := res.1 }

/-- `run_battery_sim` of `battery_sim_simple.py`: percentiles from the
caller, `capacity_mwh = 100` fixed. -/
def run_battery_sim_simple (charge_thr_pct discharge_thr_pct power_mw rte : ℚ)
    (forecast noise : List ℚ) : SimResult :=
  runBatterySim charge_thr_pct discharge_thr_pct power_mw rte 100 forecast noise

/-- `run_battery_sim` of `main.py`: capacity from the caller, percentiles
fixed at 30 and 70. -/
def run_battery_sim_main (capacity_mwh power_mw rte : ℚ)
    (forecast noise : List ℚ) : SimResult :=
  runBatterySim 30 70 power_mw rte capacity_mwh forecast noise

/-! ## Helper lemmas about the hour step and the loop -/

/-- The `soc` recorded in the appended row is the updated state of charge
(the Python code appends `soc` after mutating it). -/
lemma simStep_row_soc (cap power rte cThr dThr : ℚ) (h : Nat) (p soc profit : ℚ) :
    (simStep cap power rte cThr dThr h p soc profit).1.soc
      = (simStep cap power rte cThr dThr h p soc profit).2.1 := by
  simp only [simStep]
  split_ifs <;> rfl

/-- One hour step keeps the state of charge within `[0, capacity]` when the
power limit is positive. -/
lemma simStep_soc_bounds (cap power rte cThr dThr : ℚ) (h : Nat) (p soc profit : ℚ)
    (hpow : 0 < power) (h0 : 0 ≤ soc) (h1 : soc ≤ cap) :
    0 ≤ (simStep cap power rte cThr dThr h p soc profit).2.1
      ∧ (simStep cap power rte cThr dThr h p soc profit).2.1 ≤ cap := by
  simp only [simStep]
  split_ifs with hc hd
  · have hm1 : min power (cap - soc) ≤ cap - soc := min_le_right _ _
    have hm0 : (0:ℚ) ≤ min power (cap - soc) :=
      le_min hpow.le (by linarith [hc.2])
    constructor <;> [skip; skip] <;> simp only [] <;> linarith
  · have hm1 : min power soc ≤ soc := min_le_right _ _
    have hm0 : (0:ℚ) ≤ min power soc := le_min hpow.le hd.2.le
    constructor <;> [skip; skip] <;> simp only [] <;> linarith
  · exact ⟨h0, h1⟩

/-- Every row the loop appends has its state of charge within
`[0, capacity]`, provided the loop is entered with `soc ∈ [0, capacity]`. -/
lemma simLoop_soc_bounds (cap power rte cThr dThr : ℚ) (hpow : 0 < power)
    (ps : List ℚ) :
    ∀ (h : Nat) (soc profit : ℚ), 0 ≤ soc → soc ≤ cap →
      ∀ row ∈ (simLoop cap power rte cThr dThr h ps soc profit).1,
        0 ≤ row.soc ∧ row.soc ≤ cap := by
  induction ps with
  | nil =>
    intro h soc profit h0 h1 row hrow
    simp [simLoop] at hrow
  | cons p ps ih =>
    intro h soc profit h0 h1 row hrow
    simp only [simLoop] at hrow
    rcases List.mem_cons.mp hrow with hr | hr
    · subst hr
      rw [simStep_row_soc]
      exact simStep_soc_bounds cap power rte cThr dThr h p soc profit hpow h0 h1
    · obtain ⟨b0, b1⟩ :=
        simStep_soc_bounds cap power rte cThr dThr h p soc profit hpow h0 h1
      exact ih (h + 1) _ _ b0 b1 row hr

end BatterySim

namespace BatterySim

/-! ## Claims -/

/-- C1: for every configuration with `capacity_mwh > 0` and
`power_limit_mw > 0` and every hour of the simulation loop, the recorded
state of charge after the hour satisfies `0 ≤ soc_after ≤ capacity_mwh`
(the loop starts from `soc = 0`; a charge adds
`min(power_limit_mw, capacity_mwh - soc)` and a discharge removes
`min(power_limit_mw, soc)`). -/
theorem c1_soc_bounds (chargePct dischargePct power rte capacity : ℚ)
    (forecast noise : List ℚ) (hcap : 0 < capacity) (hpow : 0 < power) :
    ∀ row ∈ (runBatterySim chargePct dischargePct power rte capacity
        forecast noise).rows,
      0 ≤ row.soc ∧ row.soc ≤ capacity := by
  intro row hrow
  simp only [runBatterySim] at hrow
  exact simLoop_soc_bounds capacity power rte _ _ hpow _ 0 0 0 le_rfl hcap.le row hrow

/-- Witness for C1 at a concrete configuration. -/
theorem c1_soc_bounds_witness :
    (0:ℚ) < 100 ∧ (0:ℚ) < 25 ∧
      ∀ row ∈ (runBatterySim 30 70 25 (9/10) 100 [10, 50] [0, 0]).rows,
        0 ≤ row.soc ∧ row.soc ≤ 100 :=
  ⟨by norm_num, by norm_num,
    c1_soc_bounds 30 70 25 (9/10) 100 [10, 50] [0, 0] (by norm_num) (by norm_num)⟩

/-- C2: round-trip efficiency is applied exactly once, on the discharge side
only.  If the discharge branch fires at state of charge `S` with
`power ≥ S`, the amount discharged is `S` and the profit contribution is
`S * rte * p`; if the charge branch fires, the cost subtracted from profit is
`charge_mwh * p` with no efficiency factor. -/
theorem c2_efficiency_once (cap power rte cThr dThr : ℚ) (h : Nat)
    (p soc profit : ℚ) :
    (¬ (p ≤ cThr ∧ soc < cap) → dThr ≤ p → 0 < soc → soc ≤ power →
        (simStep cap power rte cThr dThr h p soc profit).1.dis = soc
          ∧ (simStep cap power rte cThr dThr h p soc profit).2.2
              = profit + soc * rte * p)
    ∧ (p ≤ cThr → soc < cap →
        (simStep cap power rte cThr dThr h p soc profit).2.2
          = profit
              - (simStep cap power rte cThr dThr h p soc profit).1.chg * p) := by
  constructor
  · intro hnc hd h0 hps
    have hmin : min power soc = soc := min_eq_right hps
    simp [simStep, hnc, hd, h0, hmin]
  · intro hc hlt
    simp [simStep, hc, hlt]

/-- Witness for C2: a one-hour discharge at `soc = 5 ≤ power = 8` with
`rte = 9/10`, `p = 4` discharges `5` and adds `5 * (9/10) * 4 = 18`, and a
one-hour charge at price `2` subtracts `charge_mwh * 2`. -/
theorem c2_efficiency_once_witness :
    ((simStep 100 8 (9/10) 1 3 0 4 5 0).1.dis = 5
        ∧ (simStep 100 8 (9/10) 1 3 0 4 5 0).2.2 = 0 + 5 * (9/10) * 4)
      ∧ (simStep 100 8 (9/10) 1 3 0 (1/2) 5 0).2.2
          = 0 - (simStep 100 8 (9/10) 1 3 0 (1/2) 5 0).1.chg * (1/2) :=
  ⟨(c2_efficiency_once 100 8 (9/10) 1 3 0 4 5 0).1
      (by norm_num) (by norm_num) (by norm_num) (by norm_num),
    (c2_efficiency_once 100 8 (9/10) 1 3 0 (1/2) 5 0).2
      (by norm_num) (by norm_num)⟩

/-- C3: when the realized price satisfies both the charge condition
(`p ≤ charge_thr`) and the discharge condition (`discharge_thr ≤ p`) and
`soc < capacity`, the chosen action is charge: the charge branch is tested
first and short-circuits the discharge branch. -/
theorem c3_charge_priority (cap power rte cThr dThr : ℚ) (h : Nat)
    (p soc profit : ℚ) (hc : p ≤ cThr) (_hd : dThr ≤ p) (hlt : soc < cap) :
    (simStep cap power rte cThr dThr h p soc profit).1.action = Action.charge := by
  simp [simStep, hc, hlt]

/-- Witness for C3: `p = 5` with `charge_thr = 5 = discharge_thr` and
an empty battery charges. -/
theorem c3_charge_priority_witness :
    (5:ℚ) ≤ 5 ∧ (5:ℚ) ≤ 5 ∧ (0:ℚ) < 100 ∧
      (simStep 100 10 1 5 5 0 5 0 0).1.action = Action.charge :=
  ⟨le_refl 5, le_refl 5, by norm_num,
    c3_charge_priority 100 10 1 5 5 0 5 0 0 le_rfl le_rfl (by norm_num)⟩

/-- C8: when the realized price lies strictly between the two thresholds,
the hour is a no-op: the appended row records action idle with
`charge_mwh = discharge_mwh = 0`, and the state of charge and cumulative
profit are returned unchanged. -/
theorem c8_idle_frame (cap power rte cThr dThr : ℚ) (h : Nat)
    (p soc profit : ℚ) (h1 : cThr < p) (h2 : p < dThr) :
    simStep cap power rte cThr dThr h p soc profit
      = (⟨h, p, Action.idle, soc, 0, 0⟩, soc, profit) := by
  have hc : ¬ (p ≤ cThr ∧ soc < cap) := fun hcc => absurd hcc.1 (not_le.mpr h1)
  have hd : ¬ (dThr ≤ p ∧ 0 < soc) := fun hdd => absurd hdd.1 (not_le.mpr h2)
  simp [simStep, hc, hd]

/-- Witness for C8: thresholds `3 < p = 4 < 6` leave the state untouched. -/
theorem c8_idle_frame_witness :
    (3:ℚ) < 4 ∧ (4:ℚ) < 6 ∧
      simStep 100 10 (9/10) 3 6 7 4 50 (-2)
        = (⟨7, 4, Action.idle, 50, 0, 0⟩, 50, -2) :=
  ⟨by norm_num, by norm_num,
    c8_idle_frame 100 10 (9/10) 3 6 7 4 50 (-2) (by norm_num) (by norm_num)⟩

/-- C4: the charge and discharge thresholds of the report are the
linear-interpolation percentiles of the forecast price curve at the two
requested percentile points, and they depend only on the forecast prices:
changing the noise (hence the realized prices) leaves both unchanged. -/
theorem c4_thresholds_from_forecast (chargePct dischargePct power rte capacity : ℚ)
    (forecast noise noise' : List ℚ) :
    (runBatterySim chargePct dischargePct power rte capacity
        forecast noise).charge_thr = percentileLinear forecast chargePct
      ∧ (runBatterySim chargePct dischargePct power rte capacity
          forecast noise).discharge_thr = percentileLinear forecast dischargePct
      ∧ (runBatterySim chargePct dischargePct power rte capacity
          forecast noise).charge_thr
        = (runBatterySim chargePct dischargePct power rte capacity
            forecast noise').charge_thr
      ∧ (runBatterySim chargePct dischargePct power rte capacity
          forecast noise).discharge_thr
        = (runBatterySim chargePct dischargePct power rte capacity
            forecast noise').discharge_thr :=
  ⟨rfl, rfl, rfl, rfl⟩

/-- `getD` of a pointwise `zipWith` at an index inside both lists. -/
lemma getD_zipWith (f : ℚ → ℚ → ℚ) :
    ∀ (as bs : List ℚ) (i : Nat), i < as.length → i < bs.length →
      (List.zipWith f as bs).getD i 0 = f (as.getD i 0) (bs.getD i 0) := by
  intro as
  induction as with
  | nil => intro bs i hi _; simp at hi
  | cons a as ih =>
    intro bs i hi hj
    cases bs with
    | nil => simp at hj
    | cons b bs =>
      cases i with
      | zero => rfl
      | succ i =>
        simp only [List.zipWith_cons_cons, List.getD_cons_succ]
        exact ih bs i (Nat.lt_of_succ_lt_succ hi) (Nat.lt_of_succ_lt_succ hj)

/-- C5: for every hour inside the curve, the realized price equals
`max(forecast + noise, -20)` — the `-20` floor is applied after the noise is
added — and there is no upper clamp: for every bound `M` some noise value
makes the realized price exceed `M`. -/
theorem c5_realized_clamp (forecast noise : List ℚ) (h : Nat)
    (hf : h < forecast.length) (hn : h < noise.length) :
    (realizedPrices forecast noise).getD h 0
        = max (forecast.getD h 0 + noise.getD h 0) (-20)
      ∧ ∀ M : ℚ, ∃ n : ℚ, M < max (forecast.getD h 0 + n) (-20) := by
  constructor
  · rw [realizedPrices, getD_zipWith realizedPrice forecast noise h hf hn]
    rfl
  · intro M
    refine ⟨M + 1 - forecast.getD h 0, ?_⟩
    have : forecast.getD h 0 + (M + 1 - forecast.getD h 0) = M + 1 := by ring
    rw [this]
    exact lt_of_lt_of_le (by linarith) (le_max_left _ _)

/-- Witness for C5 at hour 0 of a two-hour curve. -/
theorem c5_realized_clamp_witness :
    (0:Nat) < ([5, -100] : List ℚ).length ∧ (0:Nat) < ([1, 2] : List ℚ).length ∧
      ((realizedPrices [5, -100] [1, 2]).getD 0 0
          = max (([5, -100] : List ℚ).getD 0 0 + ([1, 2] : List ℚ).getD 0 0) (-20)
        ∧ ∀ M : ℚ, ∃ n : ℚ, M < max (([5, -100] : List ℚ).getD 0 0 + n) (-20)) :=
  ⟨by decide, by decide,
    c5_realized_clamp [5, -100] [1, 2] 0 (by decide) (by decide)⟩

/-- One linear-congruential step, the state update of the model PRNG. -/
def lcgNext (s : ℕ) : ℕ := (1103515245 * s + 12345) % 2 ^ 31

/-- `k` pseudo-random rationals from LCG state `s`. -/
def noiseSeq : Nat → ℕ → List ℚ
  | 0, _ => []
  | k + 1, s => (((s % 1201 : ℕ) : ℚ) / 100 - 6) :: noiseSeq k (lcgNext s)

/-- Modelled from the spec: the noise draw
`rng = np.random.default_rng(int(seed)); noise = rng.normal(0, 6, size=24)`
uses numpy library code that is not part of this repository.  Per the spec it
is "a deterministic pseudo-random generator seeded by random_seed" scoped to
the single call, whose only property the claims use is that the same seed
always yields the same 24-value noise sequence; we model it by a fixed
deterministic 24-value sequence computed from the seed by a simple linear
congruential generator (the distribution is irrelevant to the claims). -/
def noiseFromSeed (seed : ℤ) : List ℚ :=
  noiseSeq 24 ((seed % (2 ^ 31 : ℤ)).toNat)

/-- The simulation as a function of the seed: the generator is constructed
locally from the seed inside the call, so the whole run is a pure function
of the input tuple. -/
def run_battery_sim_seeded (chargePct dischargePct power rte capacity : ℚ)
    (seed : ℤ) (forecast : List ℚ) : SimResult :=
  runBatterySim chargePct dischargePct power rte capacity forecast
    (noiseFromSeed seed)

/-- C6: the simulation is deterministic.  Two invocations whose input tuples
(percentiles, power limit, efficiency, capacity, seed, forecast shape) agree
componentwise return identical reports — in particular identical forecast
price sequences, identical realized price sequences, identical hour-by-hour
traces and identical total profit; the only randomness is the generator
constructed locally from the seed inside the call. -/
theorem c6_deterministic (a a' b b' pw pw' r r' c c' : ℚ) (s s' : ℤ)
    (f f' : List ℚ) (ha : a = a') (hb : b = b') (hpw : pw = pw')
    (hr : r = r') (hc : c = c') (hs : s = s') (hf : f = f') :
    run_battery_sim_seeded a b pw r c s f
      = run_battery_sim_seeded a' b' pw' r' c' s' f' := by
  subst ha; subst hb; subst hpw; subst hr; subst hc; subst hs; subst hf
  rfl

/-- Witness for C6: two textually separate invocations on the same tuple. -/
theorem c6_deterministic_witness :
    (30:ℚ) = 30 ∧ (70:ℚ) = 70 ∧ (25:ℚ) = 25 ∧ (9/10:ℚ) = 9/10
      ∧ (100:ℚ) = 100 ∧ (42:ℤ) = 42 ∧ ([1, 2] : List ℚ) = [1, 2]
      ∧ run_battery_sim_seeded 30 70 25 (9/10) 100 42 [1, 2]
          = run_battery_sim_seeded 30 70 25 (9/10) 100 42 [1, 2] :=
  ⟨rfl, rfl, rfl, rfl, rfl, rfl, rfl,
    c6_deterministic 30 30 70 70 25 25 (9/10) (9/10) 100 100 42 42 [1, 2] [1, 2]
      rfl rfl rfl rfl rfl rfl rfl⟩

/-- The loop appends exactly one row per realized price. -/
lemma simLoop_length (cap power rte cThr dThr : ℚ) (ps : List ℚ) :
    ∀ (h : Nat) (soc profit : ℚ),
      (simLoop cap power rte cThr dThr h ps soc profit).1.length = ps.length := by
  induction ps with
  | nil => intro h soc profit; rfl
  | cons p ps ih =>
    intro h soc profit
    simp only [simLoop, List.length_cons]
    rw [ih]

/-- With nonpositive capacity and an empty battery, the hour step is a
no-op: the charge guard `soc < capacity` fails at `soc = 0` and the
discharge guard `soc > 0` fails. -/
lemma simStep_cap_nonpos (cap power rte cThr dThr : ℚ) (h : Nat)
    (p profit : ℚ) (hcap : cap ≤ 0) :
    simStep cap power rte cThr dThr h p 0 profit
      = (⟨h, p, Action.idle, 0, 0, 0⟩, 0, profit) := by
  have hc : ¬ (p ≤ cThr ∧ (0:ℚ) < cap) :=
    fun hh => absurd (lt_of_lt_of_le hh.2 hcap) (lt_irrefl 0)
  have hd : ¬ (dThr ≤ p ∧ (0:ℚ) < 0) := fun hh => lt_irrefl 0 hh.2
  simp [simStep, hc, hd]

/-- With nonpositive capacity, the loop from `soc = 0` marks every hour idle
and leaves the profit unchanged. -/
lemma simLoop_cap_nonpos (cap power rte cThr dThr : ℚ) (hcap : cap ≤ 0)
    (ps : List ℚ) :
    ∀ (h : Nat) (profit : ℚ),
      (∀ row ∈ (simLoop cap power rte cThr dThr h ps 0 profit).1,
          row.action = Action.idle)
        ∧ (simLoop cap power rte cThr dThr h ps 0 profit).2.2 = profit := by
  induction ps with
  | nil => intro h profit; exact ⟨by intro row hrow; simp [simLoop] at hrow, rfl⟩
  | cons p ps ih =>
    intro h profit
    have hstep := simStep_cap_nonpos cap power rte cThr dThr h p profit hcap
    constructor
    · intro row hrow
      simp only [simLoop, hstep] at hrow
      rcases List.mem_cons.mp hrow with hr | hr
      · subst hr; rfl
      · exact (ih (h + 1) profit).1 row hr
    · simp only [simLoop, hstep]
      exact (ih (h + 1) profit).2

/-- C7: degenerate configurations do not raise.  For every parameter choice
— including `power ≤ 0` or `rte` outside `(0,1]` — the run returns a full
report with one row per realized price; and when `capacity ≤ 0` the charge
branch never fires: every hour's action is idle and the total profit is 0. -/
theorem c7_degenerate_inputs (chargePct dischargePct power rte capacity : ℚ)
    (forecast noise : List ℚ) :
    (runBatterySim chargePct dischargePct power rte capacity
        forecast noise).rows.length = (realizedPrices forecast noise).length
      ∧ (capacity ≤ 0 →
          (∀ row ∈ (runBatterySim chargePct dischargePct power rte capacity
              forecast noise).rows, row.action = Action.idle)
            ∧ (runBatterySim chargePct dischargePct power rte capacity
                forecast noise).profit = 0) := by
  constructor
  · exact simLoop_length capacity power rte _ _ (realizedPrices forecast noise) 0 0 0
  · intro hcap
    exact simLoop_cap_nonpos capacity power rte _ _ hcap
      (realizedPrices forecast noise) 0 0

/-- Witness for C7 at `capacity = -1`, `power = -3`, `rte = 7/2`. -/
theorem c7_degenerate_inputs_witness :
    ((runBatterySim 30 70 (-3) (7/2) (-1) [4, 9] [0, 0]).rows.length
        = (realizedPrices [4, 9] [0, 0]).length)
      ∧ ((-1:ℚ) ≤ 0
        ∧ (∀ row ∈ (runBatterySim 30 70 (-3) (7/2) (-1) [4, 9] [0, 0]).rows,
              row.action = Action.idle)
        ∧ (runBatterySim 30 70 (-3) (7/2) (-1) [4, 9] [0, 0]).profit = 0) :=
  ⟨(c7_degenerate_inputs 30 70 (-3) (7/2) (-1) [4, 9] [0, 0]).1,
    by norm_num,
    (c7_degenerate_inputs 30 70 (-3) (7/2) (-1) [4, 9] [0, 0]).2 (by norm_num)⟩

/-- Each hour changes the profit by `(dis * rte - chg) * price` of the
appended row: `-chg * p` on a charge, `dis * rte * p` on a discharge, `0`
when idle. -/
lemma simStep_profit_delta (cap power rte cThr dThr : ℚ) (h : Nat)
    (p soc profit : ℚ) :
    (simStep cap power rte cThr dThr h p soc profit).2.2
      = profit
        + ((simStep cap power rte cThr dThr h p soc profit).1.dis * rte
            - (simStep cap power rte cThr dThr h p soc profit).1.chg) *
            (simStep cap power rte cThr dThr h p soc profit).1.price := by
  simp only [simStep]
  split_ifs <;> simp
  ring

/-- The final profit of the loop is the starting profit plus the sum of the
per-row contributions `(dis * rte - chg) * price`. -/
lemma simLoop_profit_sum (cap power rte cThr dThr : ℚ) (ps : List ℚ) :
    ∀ (h : Nat) (soc profit : ℚ),
      (simLoop cap power rte cThr dThr h ps soc profit).2.2
        = profit
          + ((simLoop cap power rte cThr dThr h ps soc profit).1.map
              (fun r => (r.dis * rte - r.chg) * r.price)).sum := by
  induction ps with
  | nil => intro h soc profit; simp [simLoop]
  | cons p ps ih =>
    intro h soc profit
    simp only [simLoop, List.map_cons, List.sum_cons]
    rw [ih]
    rw [simStep_profit_delta cap power rte cThr dThr h p soc profit]
    ring

/-- C9: profit accounting is consistent with the trace.  Starting from
profit 0, after processing any price sequence the loop's cumulative profit
equals the sum over the rows produced so far of
`(discharge_mwh * rte - charge_mwh) * realized_price` (instantiating the
sequence at each prefix gives the invariant after every hour); in particular
the reported total profit is exactly this sum over the trace rows. -/
theorem c9_profit_accounting (chargePct dischargePct power rte capacity : ℚ)
    (cThr dThr : ℚ) (ps : List ℚ) (h0 : Nat) (forecast noise : List ℚ) :
    (simLoop capacity power rte cThr dThr h0 ps 0 0).2.2
        = ((simLoop capacity power rte cThr dThr h0 ps 0 0).1.map
            (fun r => (r.dis * rte - r.chg) * r.price)).sum
      ∧ (runBatterySim chargePct dischargePct power rte capacity
            forecast noise).profit
          = ((runBatterySim chargePct dischargePct power rte capacity
              forecast noise).rows.map
              (fun r => (r.dis * rte - r.chg) * r.price)).sum := by
  constructor
  · have h1 := simLoop_profit_sum capacity power rte cThr dThr ps h0 0 0
    rwa [zero_add] at h1
  · have h2 := simLoop_profit_sum capacity power rte
      (percentileLinear forecast chargePct) (percentileLinear forecast dischargePct)
      (realizedPrices forecast noise) 0 0 0
    rwa [zero_add] at h2

/-- From an empty battery the hour step never discharges: it charges, or it
idles leaving the state of charge at 0. -/
lemma simStep_at_zero (cap power rte cThr dThr : ℚ) (h : Nat) (p profit : ℚ) :
    (simStep cap power rte cThr dThr h p 0 profit).1.action = Action.charge
      ∨ ((simStep cap power rte cThr dThr h p 0 profit).1.action = Action.idle
          ∧ (simStep cap power rte cThr dThr h p 0 profit).2.1 = 0) := by
  simp only [simStep]
  split_ifs with hc hd
  · exact Or.inl rfl
  · exact absurd hd.2 (lt_irrefl 0)
  · exact Or.inr ⟨rfl, rfl⟩

/-- From `soc = 0`, any discharge row in the loop's trace is preceded by a
charge row. -/
lemma simLoop_discharge_after_charge (cap power rte cThr dThr : ℚ)
    (d : HourRow) (ps : List ℚ) :
    ∀ (h : Nat) (profit : ℚ) (i : Nat),
      i < (simLoop cap power rte cThr dThr h ps 0 profit).1.length →
      ((simLoop cap power rte cThr dThr h ps 0 profit).1.getD i d).action
          = Action.discharge →
      ∃ k, k < i
        ∧ ((simLoop cap power rte cThr dThr h ps 0 profit).1.getD k d).action
            = Action.charge := by
  induction ps with
  | nil => intro h profit i hi _; simp [simLoop] at hi
  | cons p ps ih =>
    intro h profit i hi hdis
    rcases simStep_at_zero cap power rte cThr dThr h p profit with hchg | ⟨hidle, hsoc⟩
    · cases i with
      | zero =>
        exfalso
        simp only [simLoop, List.getD_cons_zero] at hdis
        rw [hchg] at hdis
        exact absurd hdis (by decide)
      | succ j =>
        refine ⟨0, Nat.succ_pos j, ?_⟩
        simp only [simLoop, List.getD_cons_zero]
        exact hchg
    · cases i with
      | zero =>
        exfalso
        simp only [simLoop, List.getD_cons_zero] at hdis
        rw [hidle] at hdis
        exact absurd hdis (by decide)
      | succ j =>
        simp only [simLoop, List.length_cons] at hi
        simp only [simLoop, List.getD_cons_succ] at hdis
        rw [hsoc] at hi hdis
        obtain ⟨k, hk, hact⟩ := ih (h + 1) _ j (Nat.lt_of_succ_lt_succ hi) hdis
        refine ⟨k + 1, Nat.succ_lt_succ hk, ?_⟩
        simp only [simLoop, List.getD_cons_succ]
        rw [hsoc]
        exact hact

/-- C10: no discharge before a charge.  The battery starts empty and the
discharge branch requires `soc > 0`, so any trace row recording a discharge
is preceded by an earlier row recording a charge. -/
theorem c10_no_discharge_before_charge
    (chargePct dischargePct power rte capacity : ℚ) (forecast noise : List ℚ)
    (d : HourRow) (i : Nat)
    (hi : i < (runBatterySim chargePct dischargePct power rte capacity
        forecast noise).rows.length)
    (hdis : ((runBatterySim chargePct dischargePct power rte capacity
        forecast noise).rows.getD i d).action = Action.discharge) :
    ∃ k, k < i
      ∧ ((runBatterySim chargePct dischargePct power rte capacity
          forecast noise).rows.getD k d).action = Action.charge := by
  simp only [runBatterySim] at hi hdis ⊢
  exact simLoop_discharge_after_charge capacity power rte _ _ d
    (realizedPrices forecast noise) 0 0 i hi hdis

/-- Witness for C10: with forecast `[0, 10]` both thresholds are 5; hour 0
charges at price 0 and hour 1 discharges at price 10. -/
theorem c10_no_discharge_before_charge_witness :
    (1 < (runBatterySim 50 50 4 1 10 [0, 10] [0, 0]).rows.length
      ∧ ((runBatterySim 50 50 4 1 10 [0, 10] [0, 0]).rows.getD 1
          ⟨0, 0, Action.idle, 0, 0, 0⟩).action = Action.discharge)
    ∧ ∃ k, k < 1
        ∧ ((runBatterySim 50 50 4 1 10 [0, 10] [0, 0]).rows.getD k
            ⟨0, 0, Action.idle, 0, 0, 0⟩).action = Action.charge :=
  ⟨⟨by with_unfolding_all decide, by with_unfolding_all decide⟩,
    c10_no_discharge_before_charge 50 50 4 1 10 [0, 10] [0, 0]
      ⟨0, 0, Action.idle, 0, 0, 0⟩ 1 (by with_unfolding_all decide)
      (by with_unfolding_all decide)⟩

end BatterySim
